import Mathlib

/-!
Verification of the scikit-tracker trajectory-table and gap-close solver
specification against a shallow embedding of the source code.

The embedding translates `sktracker/tracker/solver/gap_close_solver.py` and
`sktracker/trajectories/trajectories.py` into executable Lean definitions.
A pandas `Trajectories` data frame indexed by the composite key
`(t_stamp, label)` is modelled as a list of records in index order; numpy
arrays become lists; a raised Python exception becomes `Option.none` (or an
`Except.error`); numpy's NaN sentinel for an infeasible cost becomes
`Option.none` inside a matrix of `Option Rat`.  Floating-point arithmetic is
modelled exactly over `Rat`; the uint16 cast in `relabel_fromzero` is
modelled as reduction mod 65536.
-/

namespace SkTracker

/-- One record (spot) of a trajectory table: the composite index key
`(t_stamp, label)` plus the payload columns (coordinates, time), which the
solver code moves around but never rewrites. -/
structure TRow where
  t_stamp : Int
  label : Nat
  payload : List Rat
deriving DecidableEq, Repr

/-- A trajectory table: the records in data-frame (index) order. -/
structure TrajTable where
  rows : List TRow
deriving DecidableEq, Repr

/-- Accumulator worker for `uniqueFirst`: drops every value already seen. -/
def uniqueFirstAux (seen : List Nat) : List Nat → List Nat
  | [] => []
  | x :: xs =>
    if x ∈ seen then uniqueFirstAux seen xs
    else x :: uniqueFirstAux (x :: seen) xs

/-- First-occurrence deduplication, the order used by
`pandas.Index.unique()`: each distinct value appears once, at the position
of its first occurrence. -/
def uniqueFirst (l : List Nat) : List Nat :=
  uniqueFirstAux [] l

/-- Distinct labels of the table in order of first appearance, as returned
by the `Trajectories.labels` property (`index.get_level_values('label').unique()`). -/
def tableLabels (t : TrajTable) : List Nat :=
  uniqueFirst (t.rows.map TRow.label)

/-- Distinct labels in ascending order: the iteration order of the keys of
`groupby(level='label').groups` (pandas sorts group keys). -/
def sortedLabels (t : TrajTable) : List Nat :=
  (tableLabels t).insertionSort (fun a b => a ≤ b)

/-- The `t_stamp` values of the records carrying label `l`, in data-frame
order: the first components of `segment_idxs[l]`. -/
def segTs (t : TrajTable) (l : Nat) : List Int :=
  (t.rows.filter (fun r => r.label = l)).map TRow.t_stamp

/-- First `t_stamp` of the segment with label `l` (`idxs[0][0]` in
`_get_candidates`); the group is never empty for a present label. -/
def segStart (t : TrajTable) (l : Nat) : Int :=
  (segTs t l).headD 0

/-- Last `t_stamp` of the segment with label `l` (`idxs[-1][0]` in
`_get_candidates`). -/
def segStop (t : TrajTable) (l : Nat) : Int :=
  (segTs t l).getLastD 0

/-- The `bounds` array of `GapCloseSolver._get_candidates`: one
`(start, stop)` pair per segment, in the (sorted) iteration order of
`segment_idxs.values()`. -/
def boundsList (t : TrajTable) : List (Int × Int) :=
  (sortedLabels t).map (fun l => (segStart t l, segStop t l))

/-- Shallow embedding of `GapCloseSolver._get_candidates`.  Returns
`(in_idxs, out_idxs)`; `none` models a raised numpy `IndexError`:
on an empty table `np.array([])` has shape `(0,)` so `bounds[:, 0]`
raises, and a label value not smaller than the number of segments makes the
fancy indexing `start_times[ss_in]` raise.  The gap test indexes
`start_times`/`stop_times` by the label values (`ss_in`, `ss_out` hold
labels), while the returned keys pair `start_times` at the match positions
with the labels at the match positions, exactly as in the source. -/
def getCandidates (t : TrajTable) (maxGap : Int) :
    Option (List (Int × Nat) × List (Int × Nat)) :=
  let labels := tableLabels t
  let bounds := boundsList t
  if bounds.isEmpty then none
  else if labels.all (fun l => l < bounds.length) then
    let startTimes := bounds.map Prod.fst
    let stopTimes := bounds.map Prod.snd
    let n := labels.length
    let idxPairs := (List.range n).flatMap
      (fun i => (List.range n).map (fun j => (i, j)))
    let matchList := idxPairs.filter (fun p =>
      let g := startTimes.getD (labels.getD p.1 0) 0
        - stopTimes.getD (labels.getD p.2 0) 0
      decide (0 < g ∧ g < maxGap))
    if matchList.isEmpty then some ([], [])
    else
      let inIdxs := matchList.map
        (fun p => (startTimes.getD p.1 0, labels.getD p.1 0))
      let outIdxs := matchList.map
        (fun p => (startTimes.getD p.2 0, labels.getD p.2 0))
      some (inIdxs, outIdxs)
  else none

/-- A record with empty payload, for concrete test tables. -/
def mkRow (ts : Int) (l : Nat) : TRow :=
  { t_stamp := ts, label := l, payload := [] }

/-- Two-segment table: label 0 spans `t_stamp` 0..2, label 1 spans 5..7.
This is the gap-closure scenario of the specification (segments separated
by a gap of 3 frames). -/
def twoSegTable : TrajTable :=
  { rows := [mkRow 0 0, mkRow 1 0, mkRow 2 0,
             mkRow 5 1, mkRow 6 1, mkRow 7 1] }

/-- Lexicographic order on the composite index key `(t_stamp, label)`:
the order used by `sort_index()` after `relabel` swaps the new label in. -/
def rowKeyLe (a b : TRow) : Prop :=
  a.t_stamp < b.t_stamp ∨ (a.t_stamp = b.t_stamp ∧ a.label ≤ b.label)

instance : DecidableRel rowKeyLe := fun a b => by
  unfold rowKeyLe; infer_instance

instance : IsTotal TRow rowKeyLe := by
  constructor
  intro a b
  unfold rowKeyLe
  omega

instance : IsTrans TRow rowKeyLe := by
  constructor
  intro a b c
  unfold rowKeyLe
  omega

/-- The numpy `max()` of an array of natural numbers, as used by
`unique_new.max()` in `GapCloseSolver.assign`; for nonempty lists of
naturals `foldl max 0` agrees with numpy's maximum. -/
def listMaxNat (u : List Nat) : Nat :=
  u.foldl max 0

/-- One iteration of the loop in `GapCloseSolver.assign`:
`idx_in = out_links[idx]`; assigned past the LINK block
(`idx_in >= last_in_link`, the death alternative) mints
`unique_new.max() + 1`, otherwise (a LINK-block match) copies the current
`unique_new[idx_in]`. -/
def assignStep (n : Nat) (outLinks : List Nat) (u : List Nat) (idx : Nat) :
    List Nat :=
  if n ≤ outLinks.getD idx 0 then u.set idx (listMaxNat u + 1)
  else u.set idx (u.getD (outLinks.getD idx 0) 0)

/-- The full loop of `GapCloseSolver.assign` over
`enumerate(self.cm.out_links[:last_out_link])`, acting on
`unique_new` (initially a copy of `self.trajs.labels`);
`n = last_in_link = last_out_link` is the number of labels. -/
def assignUniqueNew (n : Nat) (outLinks : List Nat) (u0 : List Nat) :
    List Nat :=
  (List.range n).foldl (assignStep n outLinks) u0

/-- The final per-record relabeling of `GapCloseSolver.assign`:
`for old, new in zip(unique_old, unique_new): new_labels[old_labels == old] = new`.
Sequential assignments mean the last matching pair wins; a label not in
`unique_old` keeps its original value (from `new_labels = old_labels.copy()`). -/
def lookupNew (uo un : List Nat) (l : Nat) : Nat :=
  (uo.zip un).foldl (fun acc p => if p.1 = l then p.2 else acc) l

/-- The `new_labels` array computed by `GapCloseSolver.assign` for a given
solved assignment `out_links`. -/
def assignNewLabels (t : TrajTable) (outLinks : List Nat) : List Nat :=
  let uo := tableLabels t
  let un := assignUniqueNew uo.length outLinks uo
  t.rows.map (fun r => lookupNew uo un r.label)

/-- Replacement of the `label` index level by the entries of `new_labels`
(the `set_index('new_label', ...)` / `reset_index('label', ...)` pair inside
`Trajectories.relabel`); rows are aligned positionally. -/
def setNewLabels (t : TrajTable) (newLabels : List Nat) : List TRow :=
  (t.rows.zip newLabels).map (fun p => { p.1 with label := p.2 })

/-- Shallow embedding of `Trajectories.relabel_fromzero` on the record
list: each label value is replaced by the position of its first appearance
(`enumerate(old_lbls.unique())`).  The assignment stores into an array of
dtype `np.uint16`, so the stored position is reduced mod 65536. -/
def relabelFromZeroRows (rows : List TRow) : List TRow :=
  let uniq := uniqueFirst (rows.map TRow.label)
  rows.map (fun r => { r with label := (uniq.indexOf r.label) % 65536 })

/-- Shallow embedding of `Trajectories.relabel` with an explicitly supplied
`new_labels` array: write the new labels, sort by the composite key
(`sort_index()`), then renumber from zero via `relabel_fromzero` (the final
`return trajs.relabel_fromzero('label', inplace=inplace)`).  `none` models
the pandas length-mismatch error when the supplied array is not aligned
with the rows. -/
def relabelTable (t : TrajTable) (newLabels : List Nat) : Option TrajTable :=
  if newLabels.length = t.rows.length then
    let sortedRows := List.insertionSort rowKeyLe (setNewLabels t newLabels)
    some { rows := relabelFromZeroRows sortedRows }
  else none

/-- Modelled from the spec: `AbstractSolver.relabel_trajs` lives in the
`tracker/solver` package whose shared module is not part of the sources at
hand.  Per section 4.4 of the specification it rewrites every record's
`label` key to the corresponding entry of a caller-supplied array aligned
one-to-one with the existing row order, which in this code base is exactly
`Trajectories.relabel(new_labels)` (in place). -/
def relabelTrajs (t : TrajTable) (newLabels : List Nat) : Option TrajTable :=
  relabelTable t newLabels

/-- The composite effect of `GapCloseSolver.assign` on the trajectory
table, for a solved assignment `out_links` (row index of the composite cost
matrix to assigned column index). -/
def assignRelabel (t : TrajTable) (outLinks : List Nat) : Option TrajTable :=
  relabelTrajs t (assignNewLabels t outLinks)

/-- A solved assignment for `twoSegTable`: row 0 (out candidate, label 0)
is matched to column 1 (in candidate, label 1) inside the LINK block
(1 < n = 2); row 1 is matched to column 3 = n + 1, its own
death-alternative diagonal slot.  This is the canonical gap-closure
assignment: segment 0 continues as segment 1, which then terminates. -/
def linkThenDeath : List Nat := [1, 3]

/-- Exact model of `np.percentile(xs, q)` with the default linear
interpolation: with the data sorted ascending, the value at fractional
rank `q * (n - 1) / 100` is interpolated between its two neighbours.
Real arithmetic is modelled exactly over `Rat`; `np.percentile` of an
empty array raises, which the theorems below exclude by hypothesis. -/
def npPercentile (q : Rat) (xs : List Rat) : Rat :=
  let s := List.insertionSort (fun a b : Rat => a ≤ b) xs
  let h : Rat := q * ((s.length : Rat) - 1) / 100
  let lo := h.floor.toNat
  let frac := h - (lo : Rat)
  let vlo := s.getD lo 0
  let vhi := s.getD (lo + 1) vlo
  vlo + frac * (vhi - vlo)

/-- Modelled from the spec: `LinkBlock` lives in the absent
`tracker/matrices` module.  Per section 4.2 of the specification it
materialises the link cost function over the full cross product of the two
candidate-key sequences (here both are the label list), with infeasible
pairs marked by the NaN sentinel, modelled as `none`.  The cost function
argument stands for `link_cf` after its context has been seeded with the
table and the candidate index lists. -/
def linkBlockMat (labels : List Nat) (cf : Nat → Nat → Option Rat) :
    List (List (Option Rat)) :=
  labels.map (fun o => labels.map (fun i => cf o i))

/-- The flattened finite entries of a block matrix:
`np.ma.masked_invalid(mat).compressed()` drops the NaN entries and returns
the rest in row-major order. -/
def finiteEntries (m : List (List (Option Rat))) : List Rat :=
  m.flatten.filterMap id

/-- The quantities `GapCloseSolver.track` computes between candidate
enumeration and the assignment solve: the percentile-based alternative
cost, the `cost` context entries of the birth and death cost functions,
and the two DIAG blocks built afterwards from those contexts.  The diag
cost functions (absent `tracker/cost_function` module) are modelled from
the spec as functions of the seeded context cost and the candidate label. -/
structure GCSeedTrace where
  altCost : Rat
  birthContextCost : Rat
  deathContextCost : Rat
  birthDiag : List Rat
  deathDiag : List Rat
deriving DecidableEq, Repr

/-- The alternative cost computed by `GapCloseSolver.track`:
`percentile = 99; cost = np.percentile(link_costs, percentile)` with
`link_costs = np.ma.masked_invalid(self.link_block.mat).compressed()`.
The percentile is a local constant of `track`; neither `__init__` nor
`track` accepts a parameter that changes it. -/
def gapCloseAltCost (t : TrajTable) (linkCf : Nat → Nat → Option Rat) : Rat :=
  npPercentile 99 (finiteEntries (linkBlockMat (tableLabels t) linkCf))

/-- The seeding stage of `GapCloseSolver.track`: the alternative cost is
written into `birth_cf.context['cost']` and `death_cf.context['cost']`,
after which the two `DiagBlock`s are built over the label list. -/
def gapCloseSeed (t : TrajTable) (linkCf : Nat → Nat → Option Rat)
    (birthCf deathCf : Rat → Nat → Rat) : GCSeedTrace :=
  let cost := gapCloseAltCost t linkCf
  { altCost := cost
    birthContextCost := cost
    deathContextCost := cost
    birthDiag := (tableLabels t).map (birthCf cost)
    deathDiag := (tableLabels t).map (deathCf cost) }

/-- Result of `GapCloseSolver.track`: the returned table, plus the seeding
trace when a cost matrix was built (`none` records the early exit of the
no-candidate branch, which builds no block and no matrix). -/
structure GCOutcome where
  trajs : TrajTable
  seeded : Option GCSeedTrace
deriving DecidableEq, Repr

/-- Shallow embedding of `GapCloseSolver.track`.  The assignment solver of
the absent `tracker/matrices.CostMatrix` is abstracted as the `solve`
argument, producing `out_links` from the assembled blocks; `none` models a
raised exception (`_get_candidates` raises on an empty table).  When
`_get_candidates` returns no candidate pairs the method logs and returns
`self.trajs` unchanged before any block or matrix is created. -/
def gapCloseTrack (solve : GCSeedTrace → List Nat) (t : TrajTable)
    (maxGap : Int) (linkCf : Nat → Nat → Option Rat)
    (birthCf deathCf : Rat → Nat → Rat) : Option GCOutcome :=
  match getCandidates t maxGap with
  | none => none
  | some (ins, _outs) =>
    if ins.isEmpty then some { trajs := t, seeded := none }
    else
      let tr := gapCloseSeed t linkCf birthCf deathCf
      match assignRelabel t (solve tr) with
      | some u => some { trajs := u, seeded := some tr }
      | none => none

/-- The empty trajectory table (as built by `Trajectories.empty_trajs`). -/
def emptyTable : TrajTable := { rows := [] }

/-- A table holding one single segment (label 0 over two frames): gap
closing finds no candidate pair on it. -/
def singleSegTable : TrajTable := { rows := [mkRow 0 0, mkRow 1 0] }

/-- The structural shape of a data frame: its index level names and its
column names, the inputs of `Trajectories.check_trajs_df_structure`. -/
structure DFStructure where
  indexNames : List String
  colNames : List String
deriving DecidableEq, Repr

/-- A structure validation failure (`ValueError` in the source), carrying
the list of names interpolated into the error message: the full required
index list or the set of required column names. -/
inductive StructError where
  | badIndex (required : List String)
  | badColumns (required : List String)
deriving DecidableEq, Repr

/-- The names appearing in the formatted error message of a structure
validation failure. -/
def StructError.names : StructError → List String
  | StructError.badIndex req => req
  | StructError.badColumns req => req

/-- Shallow embedding of `Trajectories.check_trajs_df_structure`: a
non-empty required index list whose names differ from the actual index
names raises first; then a non-empty required column list that is not a
subset of the actual columns raises; otherwise nothing is raised.  Both
messages interpolate the required name collection (the column message
formats `set(columns)`, modelled as the list itself). -/
def checkTrajsDfStructure (s : DFStructure) (index : List String)
    (columns : List String) : Except StructError Unit :=
  if index ≠ [] ∧ s.indexNames ≠ index then
    Except.error (StructError.badIndex index)
  else if columns ≠ [] ∧ ¬ (∀ c ∈ columns, c ∈ s.colNames) then
    Except.error (StructError.badColumns columns)
  else Except.ok ()

/-- The capability kind of a cost function object: pairwise link cost or
unary diagonal (birth/death alternative) cost. -/
inductive CostFnKind where
  | link
  | diag
deriving DecidableEq, Repr

/-- A failure of `GapCloseSolver.__init__`: either the structure error
raised by `check_trajs_df_structure`, or the configuration error raised by
`check_cost_function_type` for a cost function of the wrong kind. -/
inductive SolverInitError where
  | structural (e : StructError)
  | costFnType
deriving DecidableEq, Repr

/-- Shallow embedding of `GapCloseSolver.__init__`: the table structure is
validated against index `['t_stamp', 'label']` and columns `['t'] + coords`
before the three cost functions are capability-checked
(`check_cost_function_type` is modelled from the spec, section 4.4: it
asserts the required capability kind and fails fast otherwise; the method
itself lives in the absent `AbstractSolver` module). -/
def gapCloseSolverInit (s : DFStructure) (coords : List String)
    (linkKind birthKind deathKind : CostFnKind) : Except SolverInitError Unit :=
  match checkTrajsDfStructure s ["t_stamp", "label"] ("t" :: coords) with
  | Except.error e => Except.error (SolverInitError.structural e)
  | Except.ok _ =>
    if linkKind = CostFnKind.link ∧ birthKind = CostFnKind.diag ∧
        deathKind = CostFnKind.diag then
      Except.ok ()
    else Except.error SolverInitError.costFnType

/-- A plain column table for `Trajectories.scale`: named columns over
rational-valued rows. -/
structure CTable where
  colNames : List String
  rows : List (List Rat)
deriving DecidableEq, Repr

/-- Multiplication of one column (by position) of every row by a factor,
the effect of one `trajs[coord] = trajs[coord] * factor` statement. -/
def scaleColumn (rows : List (List Rat)) (j : Nat) (f : Rat) :
    List (List Rat) :=
  rows.map (fun row => row.set j (row.getD j 0 * f))

/-- The data transformation of `Trajectories.scale`: a `ValueError` when
`factors` and `coords` have different lengths, a `KeyError` when a coord is
not a column, and otherwise each listed column multiplied by its factor. -/
def scaleCompute (t : CTable) (factors : List Rat) (coords : List String) :
    Except String CTable :=
  if factors.length ≠ coords.length then
    Except.error "Arguments factors and coords must be of same length"
  else if ¬ (∀ c ∈ coords, c ∈ t.colNames) then
    Except.error "KeyError"
  else
    let scaled := (coords.zip factors).foldl
      (fun rws p => scaleColumn rws (t.colNames.indexOf p.1) p.2) t.rows
    Except.ok { t with rows := scaled }

/-- Call semantics of `Trajectories.scale` with its `inplace` flag made
observable: the pair is `(self after the call, returned table)`.  The
source binds `trajs = self if inplace else self.copy()`, mutates `trajs`
and returns it, so with `inplace=True` the caller's table becomes the
scaled table and with `inplace=False` it is left untouched. -/
def scaleRun (t : CTable) (factors : List Rat) (coords : List String)
    (inplace : Bool) : Except String (CTable × CTable) :=
  (scaleCompute t factors coords).map
    (fun m => (if inplace then m else t, m))

/-- The source default of the `inplace` parameter of `Trajectories.scale`
(`def scale(self, factors, coords=['x', 'y', 'z'], inplace=False)`). -/
def scaleInplaceDefault : Bool := false

/-- Call semantics of `Trajectories.relabel` with its `inplace` flag made
observable: `(self after the call, returned value)`.  With `inplace=True`
the source mutates `self` through the whole pipeline and the chained
`relabel_fromzero(..., inplace=True)` returns `None`; with `inplace=False`
it operates on copies and returns the relabeled copy. -/
def relabelRun (t : TrajTable) (newLabels : List Nat) (inplace : Bool) :
    Option (TrajTable × Option TrajTable) :=
  (relabelTable t newLabels).map
    (fun m => (if inplace then m else t, if inplace then none else some m))

/-- The source default of the `inplace` parameter of `Trajectories.relabel`
(`def relabel(self, new_labels=None, inplace=True)`). -/
def relabelInplaceDefault : Bool := true

/-- Invocation of `Trajectories.relabel` by a caller that does not pass the
`inplace` argument: the source default applies. -/
def relabelWithDefault (t : TrajTable) (newLabels : List Nat) :
    Option (TrajTable × Option TrajTable) :=
  relabelRun t newLabels relabelInplaceDefault

/-- A table for `Trajectories.set_level_label`: every field (index level or
column) carries a name and per-row rational values; `indexNames` marks
which fields currently form the index.  `reset_index` and `set_index` only
move fields between the two groups, so the record values are shared. -/
structure LTable where
  indexNames : List String
  fieldNames : List String
  rows : List (List Rat)
deriving DecidableEq, Repr

/-- The current (non-index) columns of an `LTable`. -/
def ltColumns (t : LTable) : List String :=
  t.fieldNames.filter (fun n => n ∉ t.indexNames)

/-- The index manipulation of `Trajectories.set_level_label`: when `label`
is a column, every index level except `t_stamp` is reset into the columns
(`old_indexes`) and the `label` column is appended to the index; when
`label` is not a column the method only logs an error and changes
nothing. -/
def setLevelLabelCompute (t : LTable) : LTable :=
  if "label" ∈ ltColumns t then
    { t with indexNames :=
        t.indexNames.filter (fun n => n = "t_stamp") ++ ["label"] }
  else t

/-- Call semantics of `Trajectories.set_level_label` with its `inplace`
flag made observable: `(self after the call, returned value)`; the source
returns `None` when `inplace` and the modified copy otherwise. -/
def setLevelLabelRun (t : LTable) (inplace : Bool) :
    LTable × Option LTable :=
  let m := setLevelLabelCompute t
  (if inplace then m else t, if inplace then none else some m)

/-- The source default of the `inplace` parameter of
`Trajectories.set_level_label` (`def set_level_label(self, inplace=True)`). -/
def setLevelInplaceDefault : Bool := true

/-- One record of a table as seen by `Trajectories.reverse`: the composite
key, the real-valued time column `t` that `reverse` negates, and the
remaining payload columns it leaves alone. -/
structure RRow where
  t_stamp : Int
  label : Nat
  t : Rat
  payload : List Rat
deriving DecidableEq, Repr

/-- A trajectory table for `Trajectories.reverse`. -/
structure RTable where
  rows : List RRow
deriving DecidableEq, Repr

/-- The per-record effect of `Trajectories.reverse`: `t_stamp` and the time
column are negated, everything else is untouched. -/
def negRow (r : RRow) : RRow :=
  { r with t_stamp := -r.t_stamp, t := -r.t }

/-- Comparison used by `trajs.sort('t_stamp')`: by `t_stamp` alone. -/
def revTLe (a b : RRow) : Prop :=
  a.t_stamp ≤ b.t_stamp

instance : DecidableRel revTLe := fun a b => by
  unfold revTLe; infer_instance

instance : IsTotal RRow revTLe := by
  constructor
  intro a b
  unfold revTLe
  omega

instance : IsTrans RRow revTLe := by
  constructor
  intro a b c
  unfold revTLe
  omega

/-- Shallow embedding of `Trajectories.reverse`: reset the index (identity
on the record model), negate `t_stamp` and the time column, sort by
`t_stamp`, and re-index.  The source sorts with pandas' default quicksort,
whose order among records of equal `t_stamp` is unspecified; the embedding
fixes that tie order with a stable sort. -/
def reverseOp (tb : RTable) : RTable :=
  { rows := List.insertionSort revTLe (tb.rows.map negRow) }

/-- Negating the key and the time column twice restores the record. -/
theorem negRow_negRow (r : RRow) : negRow (negRow r) = r := by
  cases r
  simp [negRow]

/-- The link cost function used by the concrete percentile computations:
feasible only on the two diagonal pairs, with finite costs 0 and 100. -/
def twoCostCf : Nat → Nat → Option Rat := fun o i =>
  if o = 0 ∧ i = 0 then some 0
  else if o = 1 ∧ i = 1 then some 100
  else none

/-- Every `new_labels` array produced by `GapCloseSolver.assign` is aligned
with the rows, so the subsequent `relabel` never hits the length-mismatch
error. -/
theorem assignRelabel_isSome (t : TrajTable) (outLinks : List Nat) :
    ∃ u, assignRelabel t outLinks = some u := by
  unfold assignRelabel relabelTrajs relabelTable
  simp [assignNewLabels]

/-- C1: on the gap-closure scenario table, `_get_candidates` enumerates
exactly the one pair whose gap `start_time(in) - stop_time(out) = 3` lies
in `(0, 5)`, but the returned out key is `(0, 0)` — the START endpoint of
the out segment, read from `start_times[matches_out]` — although the out
segment's stop endpoint is `t_stamp = 2`, which the claim (and the
specification) require. -/
theorem gapClose_candidates_out_key_is_start :
    getCandidates twoSegTable 5 = some ([(5, 1)], [(0, 0)]) ∧
    segStop twoSegTable 0 = 2 ∧ (0 : Int) ≠ 2 :=
  ⟨by decide, by decide, by decide⟩

/-- C2: for the canonical solved gap-close assignment on the two-segment
table (out segment 0 linked to in segment 1 in the LINK block, segment 1
assigned its death alternative), `GapCloseSolver.assign` leaves the two
merged segments with DIFFERENT labels (0 for segment 0's records, 1 for
segment 1's records): the loop gives the out row the in candidate's
not-yet-updated label and then mints a fresh label for the in segment, so
the merged records do not end up sharing one label as the claim states. -/
theorem gapClose_assign_merge_not_shared :
    ∃ u, assignRelabel twoSegTable linkThenDeath = some u ∧
      u.rows.map TRow.label = [0, 0, 0, 1, 1, 1] ∧ (0 : Nat) ≠ 1 :=
  ⟨twoSegTable, by decide, by decide, by decide⟩

/-- C4: whenever `_get_candidates` returns zero candidate pairs,
`GapCloseSolver.track` returns the input table itself, with no block and
no cost matrix built (`seeded = none`) and no column or label touched. -/
theorem gapClose_no_candidate_noop (solve : GCSeedTrace → List Nat)
    (t : TrajTable) (maxGap : Int) (linkCf : Nat → Nat → Option Rat)
    (birthCf deathCf : Rat → Nat → Rat)
    (h : getCandidates t maxGap = some ([], [])) :
    gapCloseTrack solve t maxGap linkCf birthCf deathCf =
      some { trajs := t, seeded := none } := by
  simp [gapCloseTrack, h]

/-- Witness for the no-candidate no-op: a single-segment table has no
candidate pair and `track` returns it unchanged. -/
theorem gapClose_no_candidate_noop_witness :
    gapCloseTrack (fun _ => []) singleSegTable 5 (fun _ _ => none)
      (fun _ _ => 0) (fun _ _ => 0) =
      some { trajs := singleSegTable, seeded := none } :=
  gapClose_no_candidate_noop _ _ _ _ _ _ (by decide)

/-- C8: on the empty trajectory table `GapCloseSolver.track` raises
(modelled as `none`) instead of returning an empty table: inside
`_get_candidates`, `np.array([])` built from the empty segment dictionary
has shape `(0,)` and `bounds[:, 0]` raises an `IndexError`. -/
theorem gapClose_track_empty_raises (solve : GCSeedTrace → List Nat)
    (maxGap : Int) (linkCf : Nat → Nat → Option Rat)
    (birthCf deathCf : Rat → Nat → Rat) :
    gapCloseTrack solve emptyTable maxGap linkCf birthCf deathCf = none :=
  rfl

/-- C6 counterexample: `Trajectories.relabel` does NOT set the label level
to the supplied new labels as given: supplying `[5, 5]` on a two-record
table yields labels `[0, 0]`, because `relabel` ends by calling
`relabel_fromzero`, which renumbers the labels from zero. -/
theorem relabel_renumbers_supplied_labels :
    ∃ u, relabelTable singleSegTable [5, 5] = some u ∧
      u.rows.map TRow.label = [0, 0] ∧ ([0, 0] : List Nat) ≠ [5, 5] :=
  ⟨singleSegTable, by decide, by decide, by decide⟩

/-- The two-stage pipeline the source implements for `relabel`: write the
supplied labels, sort by the composite key, then renumber from zero. -/
def relabelComposed (t : TrajTable) (newLabels : List Nat) : TrajTable :=
  let sortedRows := List.insertionSort rowKeyLe (setNewLabels t newLabels)
  { rows := relabelFromZeroRows sortedRows }

/-- Unfolding of `relabelTable` on aligned labels into the two-stage
pipeline. -/
theorem relabelTable_eq_composed (t : TrajTable) (newLabels : List Nat)
    (h : newLabels.length = t.rows.length) :
    relabelTable t newLabels = some (relabelComposed t newLabels) := by
  simp [relabelTable, relabelComposed, h]

/-- C6 amended: for every aligned new-label array, `Trajectories.relabel`
sets the label level to the supplied labels, sorts by the composite key,
and then always invokes the relabel-from-zero normalization on the result
(the method's final statement), so the resulting label values are the
first-appearance renumbering of the supplied labels, not the supplied
values themselves. -/
theorem relabel_invokes_fromzero (t : TrajTable) (newLabels : List Nat)
    (h : newLabels.length = t.rows.length) :
    relabelTable t newLabels = some (relabelComposed t newLabels) :=
  relabelTable_eq_composed t newLabels h

/-- Witness for the amended C6 statement at a concrete table. -/
theorem relabel_invokes_fromzero_witness :
    relabelTable singleSegTable [7, 7] =
      some (relabelComposed singleSegTable [7, 7]) :=
  relabel_invokes_fromzero _ _ (by decide)

/-- C7: `GapCloseSolver` construction validates the table structure before
any tracking work: wrong index names raise a structure error whose message
carries every required (hence every missing) index name; with the index
correct, a missing required column raises a structure error whose message
carries that missing column name; a table satisfying the contract passes
`check_trajs_df_structure` without raising. -/
theorem solver_structure_check (s : DFStructure) (coords : List String)
    (lk bk dk : CostFnKind) :
    (s.indexNames ≠ ["t_stamp", "label"] →
      gapCloseSolverInit s coords lk bk dk =
        Except.error (SolverInitError.structural
          (StructError.badIndex ["t_stamp", "label"])) ∧
      ∀ nm ∈ (["t_stamp", "label"] : List String),
        nm ∈ (StructError.badIndex ["t_stamp", "label"]).names) ∧
    (s.indexNames = ["t_stamp", "label"] →
      ∀ c ∈ ("t" :: coords), c ∉ s.colNames →
        gapCloseSolverInit s coords lk bk dk =
          Except.error (SolverInitError.structural
            (StructError.badColumns ("t" :: coords))) ∧
        c ∈ (StructError.badColumns ("t" :: coords)).names) ∧
    (s.indexNames = ["t_stamp", "label"] →
      (∀ c ∈ ("t" :: coords), c ∈ s.colNames) →
      checkTrajsDfStructure s ["t_stamp", "label"] ("t" :: coords) =
        Except.ok ()) := by
  refine ⟨fun h => ?_, fun h c hc hmiss => ?_, fun h hcols => ?_⟩
  · constructor
    · have hcond : (["t_stamp", "label"] : List String) ≠ [] ∧
          s.indexNames ≠ ["t_stamp", "label"] := ⟨by simp, h⟩
      unfold gapCloseSolverInit checkTrajsDfStructure
      rw [if_pos hcond]
    · intro nm hnm
      simpa [StructError.names] using hnm
  · constructor
    · have hnall : ¬ (∀ x ∈ ("t" :: coords), x ∈ s.colNames) := by
        intro hall
        exact hmiss (hall c hc)
      have hcond1 : ¬ ((["t_stamp", "label"] : List String) ≠ [] ∧
          s.indexNames ≠ ["t_stamp", "label"]) := by
        intro hx
        exact hx.2 h
      have hcond2 : ("t" :: coords) ≠ ([] : List String) ∧
          ¬ (∀ x ∈ ("t" :: coords), x ∈ s.colNames) := ⟨by simp, hnall⟩
      unfold gapCloseSolverInit checkTrajsDfStructure
      rw [if_neg hcond1, if_pos hcond2]
    · simpa [StructError.names] using hc
  · have hcond1 : ¬ ((["t_stamp", "label"] : List String) ≠ [] ∧
        s.indexNames ≠ ["t_stamp", "label"]) := by
      intro hx
      exact hx.2 h
    have hcond2 : ¬ (("t" :: coords) ≠ ([] : List String) ∧
        ¬ (∀ x ∈ ("t" :: coords), x ∈ s.colNames)) := by
      intro hx
      exact hx.2 hcols
    unfold checkTrajsDfStructure
    rw [if_neg hcond1, if_neg hcond2]

/-- Witness for the structure validation: a wrong index errs with the
required index names, a missing column errs with the required column
names, and a conforming table passes. -/
theorem solver_structure_check_witness :
    (gapCloseSolverInit { indexNames := ["frame"], colNames := [] } ["x"]
        CostFnKind.link CostFnKind.diag CostFnKind.diag =
      Except.error (SolverInitError.structural
        (StructError.badIndex ["t_stamp", "label"]))) ∧
    (gapCloseSolverInit
        { indexNames := ["t_stamp", "label"], colNames := ["t", "x"] }
        ["x", "y"] CostFnKind.link CostFnKind.diag CostFnKind.diag =
      Except.error (SolverInitError.structural
        (StructError.badColumns ["t", "x", "y"]))) ∧
    (checkTrajsDfStructure
        { indexNames := ["t_stamp", "label"], colNames := ["t", "x"] }
        ["t_stamp", "label"] ["t", "x"] = Except.ok ()) := by
  refine ⟨?_, ?_, ?_⟩
  · exact (solver_structure_check
      { indexNames := ["frame"], colNames := [] } ["x"]
      CostFnKind.link CostFnKind.diag CostFnKind.diag).1 (by decide) |>.1
  · exact ((solver_structure_check
      { indexNames := ["t_stamp", "label"], colNames := ["t", "x"] }
      ["x", "y"] CostFnKind.link CostFnKind.diag CostFnKind.diag).2.1
      (by decide) "y" (by decide) (by decide)).1
  · exact (solver_structure_check
      { indexNames := ["t_stamp", "label"], colNames := ["t", "x"] }
      ["x"] CostFnKind.link CostFnKind.diag CostFnKind.diag).2.2
      (by decide) (by decide)

/-- C9 counterexample: a caller that does not pass `inplace` and so does
not opt in nevertheless gets in-place mutation from `Trajectories.relabel`
(its default is `inplace=True`): the caller's table becomes the relabeled
table and no fresh copy is returned. -/
theorem relabel_default_inplace_mutates :
    ∃ v, relabelWithDefault singleSegTable [1, 0] = some (v, none) ∧
      v ≠ singleSegTable :=
  ⟨{ rows := [mkRow 0 0, mkRow 1 1] }, by decide, by decide⟩

/-- C9 amended: `scale`, `relabel` and `set_level_label` each take an
`inplace` flag; with `inplace=False` the original table is left unchanged
and a fresh table carrying the modification is produced, with
`inplace=True` the table itself is mutated (and `relabel` and
`set_level_label` then return `None`).  The defaults differ: `scale`
defaults to `inplace=False` but `relabel` and `set_level_label` default to
`inplace=True`. -/
theorem inplace_copy_semantics
    (ct : CTable) (factors : List Rat) (coords : List String) (m : CTable)
    (t : TrajTable) (newLabels : List Nat) (u : TrajTable) (lt : LTable)
    (h1 : scaleCompute ct factors coords = Except.ok m)
    (h2 : relabelTable t newLabels = some u) :
    (scaleRun ct factors coords false = Except.ok (ct, m) ∧
     scaleRun ct factors coords true = Except.ok (m, m) ∧
     scaleInplaceDefault = false) ∧
    (relabelRun t newLabels false = some (t, some u) ∧
     relabelRun t newLabels true = some (u, none) ∧
     relabelInplaceDefault = true) ∧
    (setLevelLabelRun lt false = (lt, some (setLevelLabelCompute lt)) ∧
     setLevelLabelRun lt true = (setLevelLabelCompute lt, none) ∧
     setLevelInplaceDefault = true) := by
  refine ⟨⟨?_, ?_, rfl⟩, ⟨?_, ?_, rfl⟩, ⟨?_, ?_, rfl⟩⟩
  · simp [scaleRun, h1, Except.map]
  · simp [scaleRun, h1, Except.map]
  · simp [relabelRun, h2]
  · simp [relabelRun, h2]
  · simp [setLevelLabelRun]
  · simp [setLevelLabelRun]

/-- An empty one-column table for the scale witness. -/
def sampleCTable : CTable :=
  { colNames := ["x"], rows := [] }

/-- A sample table with `label` as a column, for the set-level-label
witness. -/
def sampleLTable : LTable :=
  { indexNames := ["t_stamp"],
    fieldNames := ["t_stamp", "label", "x"],
    rows := [[0, 0, 1]] }

/-- Witness for the inplace/copy semantics at concrete tables. -/
theorem inplace_copy_semantics_witness :
    (scaleRun sampleCTable [3] ["x"] false =
      Except.ok (sampleCTable, sampleCTable) ∧
     scaleRun sampleCTable [3] ["x"] true =
      Except.ok (sampleCTable, sampleCTable) ∧
     scaleInplaceDefault = false) ∧
    (relabelRun singleSegTable [0, 0] false =
      some (singleSegTable, some singleSegTable) ∧
     relabelRun singleSegTable [0, 0] true = some (singleSegTable, none) ∧
     relabelInplaceDefault = true) ∧
    (setLevelLabelRun sampleLTable false =
      (sampleLTable, some (setLevelLabelCompute sampleLTable)) ∧
     setLevelLabelRun sampleLTable true =
      (setLevelLabelCompute sampleLTable, none) ∧
     setLevelInplaceDefault = true) :=
  inplace_copy_semantics
    sampleCTable [3] ["x"] sampleCTable
    singleSegTable [0, 0] singleSegTable
    sampleLTable
    (by rfl) (by decide)

/-- C10: `Trajectories.reverse` (out of place) is an involution up to
sorting: one application permutes the records of the negated table (every
record keeps its other columns, with `t_stamp` and `t` negated), and two
applications yield a permutation of the original records that is sorted by
`t_stamp` — the original table sorted by `t_stamp`, with the tie order
among equal `t_stamp` records fixed by the stable model sort. -/
theorem reverse_involution_up_to_sort (tb : RTable) :
    (reverseOp tb).rows.Perm (tb.rows.map negRow) ∧
    (reverseOp (reverseOp tb)).rows.Perm tb.rows ∧
    (reverseOp (reverseOp tb)).rows.Sorted revTLe := by
  refine ⟨List.perm_insertionSort revTLe _, ?_, List.sorted_insertionSort revTLe _⟩
  have h1 : ((reverseOp tb).rows.map negRow).Perm ((tb.rows.map negRow).map negRow) :=
    (List.perm_insertionSort revTLe (tb.rows.map negRow)).map negRow
  have h2 : (tb.rows.map negRow).map negRow = tb.rows := by
    rw [List.map_map]
    have : negRow ∘ negRow = id := by
      funext r
      exact negRow_negRow r
    rw [this, List.map_id]
  have h3 : (reverseOp (reverseOp tb)).rows.Perm ((reverseOp tb).rows.map negRow) :=
    List.perm_insertionSort revTLe _
  have h4 := (h3.trans h1)
  rw [h2] at h4
  exact h4

/-- C3 counterexample: the percentile of `GapCloseSolver.track` is the
hardcoded local constant 99, not a configurable parameter: on a LINK block
with finite entries 0 and 100 the computed alternative cost is 99 (the
99th percentile), and it differs from the 50th percentile (50), which no
configuration of the solver can make it produce — neither `__init__` nor
`track` accepts a percentile argument. -/
theorem gapClose_percentile_not_configurable :
    gapCloseAltCost twoSegTable twoCostCf = 99 ∧
    npPercentile 50
      (finiteEntries (linkBlockMat (tableLabels twoSegTable) twoCostCf)) = 50 ∧
    gapCloseAltCost twoSegTable twoCostCf ≠
      npPercentile 50
        (finiteEntries (linkBlockMat (tableLabels twoSegTable) twoCostCf)) := by
  have hfe : finiteEntries (linkBlockMat (tableLabels twoSegTable) twoCostCf)
      = [0, 100] := by decide
  refine ⟨?_, ?_, ?_⟩
  · unfold gapCloseAltCost
    rw [hfe]
    norm_num [npPercentile, List.insertionSort, List.orderedInsert, Rat.floor_def']
  · rw [hfe]
    norm_num [npPercentile, List.insertionSort, List.orderedInsert, Rat.floor_def']
  · unfold gapCloseAltCost
    rw [hfe]
    norm_num [npPercentile, List.insertionSort, List.orderedInsert, Rat.floor_def']

/-- C3 amended: in every `track` invocation with at least one candidate
pair (and a LINK block with at least one finite entry, without which
`np.percentile` raises), the alternative cost is computed as the 99th
percentile — hardcoded in `track`, not configurable — of the finite
entries of the LINK block, and that single value seeds both the birth and
the death diagonal cost-function contexts, from which the two DIAG blocks
are then built. -/
theorem gapClose_percentile_seeds_diag_blocks (solve : GCSeedTrace → List Nat)
    (t : TrajTable) (maxGap : Int) (linkCf : Nat → Nat → Option Rat)
    (birthCf deathCf : Rat → Nat → Rat) (ins outs : List (Int × Nat))
    (h : getCandidates t maxGap = some (ins, outs)) (hne : ins ≠ [])
    (_hfin : finiteEntries (linkBlockMat (tableLabels t) linkCf) ≠ []) :
    ∃ u, gapCloseTrack solve t maxGap linkCf birthCf deathCf =
        some { trajs := u,
               seeded := some (gapCloseSeed t linkCf birthCf deathCf) } ∧
      (gapCloseSeed t linkCf birthCf deathCf).altCost =
        npPercentile 99 (finiteEntries (linkBlockMat (tableLabels t) linkCf)) ∧
      (gapCloseSeed t linkCf birthCf deathCf).birthContextCost =
        (gapCloseSeed t linkCf birthCf deathCf).altCost ∧
      (gapCloseSeed t linkCf birthCf deathCf).deathContextCost =
        (gapCloseSeed t linkCf birthCf deathCf).altCost ∧
      (gapCloseSeed t linkCf birthCf deathCf).birthDiag =
        (tableLabels t).map
          (birthCf (gapCloseSeed t linkCf birthCf deathCf).birthContextCost) ∧
      (gapCloseSeed t linkCf birthCf deathCf).deathDiag =
        (tableLabels t).map
          (deathCf (gapCloseSeed t linkCf birthCf deathCf).deathContextCost) := by
  obtain ⟨u, hu⟩ := assignRelabel_isSome t
    (solve (gapCloseSeed t linkCf birthCf deathCf))
  refine ⟨u, ?_, rfl, rfl, rfl, rfl, rfl⟩
  have hnotE : ins.isEmpty = false := by
    cases ins with
    | nil => exact absurd rfl hne
    | cons a l => rfl
  simp [gapCloseTrack, h, hnotE, hu]

/-- Witness for the percentile seeding on the gap-closure scenario. -/
theorem gapClose_percentile_seeds_diag_blocks_witness :
    ∃ u, gapCloseTrack (fun _ => linkThenDeath) twoSegTable 5 twoCostCf
        (fun c _ => c) (fun c _ => c) =
        some { trajs := u,
               seeded := some (gapCloseSeed twoSegTable twoCostCf
                 (fun c _ => c) (fun c _ => c)) } ∧
      (gapCloseSeed twoSegTable twoCostCf
        (fun c _ => c) (fun c _ => c)).altCost =
        npPercentile 99
          (finiteEntries (linkBlockMat (tableLabels twoSegTable) twoCostCf)) ∧
      (gapCloseSeed twoSegTable twoCostCf
        (fun c _ => c) (fun c _ => c)).birthContextCost =
        (gapCloseSeed twoSegTable twoCostCf
          (fun c _ => c) (fun c _ => c)).altCost ∧
      (gapCloseSeed twoSegTable twoCostCf
        (fun c _ => c) (fun c _ => c)).deathContextCost =
        (gapCloseSeed twoSegTable twoCostCf
          (fun c _ => c) (fun c _ => c)).altCost ∧
      (gapCloseSeed twoSegTable twoCostCf
        (fun c _ => c) (fun c _ => c)).birthDiag =
        (tableLabels twoSegTable).map
          (fun a => (fun c _ => c)
            (gapCloseSeed twoSegTable twoCostCf
              (fun c _ => c) (fun c _ => c)).birthContextCost a) ∧
      (gapCloseSeed twoSegTable twoCostCf
        (fun c _ => c) (fun c _ => c)).deathDiag =
        (tableLabels twoSegTable).map
          (fun a => (fun c _ => c)
            (gapCloseSeed twoSegTable twoCostCf
              (fun c _ => c) (fun c _ => c)).deathContextCost a) :=
  gapClose_percentile_seeds_diag_blocks (fun _ => linkThenDeath)
    twoSegTable 5 twoCostCf (fun c _ => c) (fun c _ => c)
    [(5, 1)] [(0, 0)] (by decide) (by decide) (by decide)

/-- Folding `max` from an arbitrary seed equals taking `max` of the seed
with the fold from zero. -/
theorem foldl_max_init (c : Nat) (l : List Nat) :
    l.foldl max c = max c (l.foldl max 0) := by
  induction l generalizing c with
  | nil => simp
  | cons x l ih =>
    simp only [List.foldl_cons]
    rw [ih (max c x), ih (max 0 x), Nat.zero_max, Nat.max_assoc]

/-- Unfolding `listMaxNat` over a cons cell. -/
theorem listMaxNat_cons (x : Nat) (l : List Nat) :
    listMaxNat (x :: l) = max x (listMaxNat l) := by
  unfold listMaxNat
  simp only [List.foldl_cons]
  rw [foldl_max_init (max 0 x), Nat.zero_max]

/-- Every element is bounded by `listMaxNat`. -/
theorem le_listMaxNat (l : List Nat) (x : Nat) (hx : x ∈ l) :
    x ≤ listMaxNat l := by
  induction l with
  | nil => cases hx
  | cons a l ih =>
    rw [listMaxNat_cons]
    rcases List.mem_cons.mp hx with h | h
    · exact h ▸ Nat.le_max_left _ _
    · exact Nat.le_trans (ih h) (Nat.le_max_right _ _)

/-- The maximum of a concatenation. -/
theorem listMaxNat_append (a b : List Nat) :
    listMaxNat (a ++ b) = max (listMaxNat a) (listMaxNat b) := by
  induction a with
  | nil =>
    rw [List.nil_append, show listMaxNat [] = 0 from rfl, Nat.zero_max]
  | cons x a ih =>
    simp only [List.cons_append, listMaxNat_cons, ih, Nat.max_assoc]

/-- The maximum of a contiguous run `range' a b`. -/
theorem listMaxNat_range' (b : Nat) : ∀ a : Nat,
    listMaxNat (List.range' a b) = if b = 0 then 0 else a + b - 1 := by
  induction b with
  | zero => intro a; rfl
  | succ m ih =>
    intro a
    rw [List.range'_succ, listMaxNat_cons, ih]
    cases m with
    | zero => simp
    | succ k =>
      rw [if_neg (Nat.succ_ne_zero k), if_neg (Nat.succ_ne_zero (k + 1))]
      have h3 : a + 1 + (k + 1) - 1 = a + k + 1 := by omega
      rw [h3]
      have hle : a ≤ a + k + 1 := by omega
      rw [Nat.max_eq_right hle]
      omega

/-- First-occurrence deduplication of a duplicate-free list not meeting the
accumulator is the identity. -/
theorem uniqueFirstAux_eq_self (l : List Nat) : ∀ seen, l.Nodup →
    (∀ x ∈ l, x ∉ seen) → uniqueFirstAux seen l = l := by
  induction l with
  | nil => intro seen _ _; rfl
  | cons x xs ih =>
    intro seen hnd hdisj
    unfold uniqueFirstAux
    rw [if_neg (hdisj x (List.mem_cons_self x xs))]
    congr 1
    apply ih
    · exact (List.nodup_cons.mp hnd).2
    · intro y hy hmem
      rcases List.mem_cons.mp hmem with h1 | h2
      · exact (List.nodup_cons.mp hnd).1 (h1 ▸ hy)
      · exact hdisj y (List.mem_cons_of_mem _ hy) h2

/-- First-occurrence deduplication of a duplicate-free list is the
identity. -/
theorem uniqueFirst_eq_self (l : List Nat) (h : l.Nodup) :
    uniqueFirst l = l :=
  uniqueFirstAux_eq_self l [] h (fun x _ => List.not_mem_nil x)

/-- The label-replacement fold ignores pairs whose old label differs. -/
theorem lookupNew_notmem (pairs : List (Nat × Nat)) (acc l : Nat)
    (h : ∀ p ∈ pairs, p.1 ≠ l) :
    pairs.foldl (fun acc p => if p.1 = l then p.2 else acc) acc = acc := by
  induction pairs generalizing acc with
  | nil => rfl
  | cons p ps ih =>
    simp only [List.foldl_cons]
    rw [if_neg (h p (List.mem_cons_self _ _))]
    exact ih acc (fun q hq => h q (List.mem_cons_of_mem _ hq))

/-- On a duplicate-free `unique_old`, the sequential label-replacement
loop maps the i-th old label to the i-th new label. -/
theorem lookupNew_getElem (uo : List Nat) : ∀ (un : List Nat) (i : Nat)
    (_hnd : uo.Nodup) (hi : i < uo.length) (hiu : i < un.length),
    lookupNew uo un (uo[i]) = un[i] := by
  induction uo with
  | nil => intro un i _ hi _; exact absurd hi (by simp)
  | cons a uo ih =>
    intro un i hnd hi hiu
    cases un with
    | nil => exact absurd hiu (by simp)
    | cons b un =>
      cases i with
      | zero =>
        unfold lookupNew
        simp only [List.zip_cons_cons, List.foldl_cons, List.getElem_cons_zero,
          if_pos rfl]
        apply lookupNew_notmem
        intro p hp hpa
        have hmem := (List.of_mem_zip hp).1
        exact (List.nodup_cons.mp hnd).1 (hpa ▸ hmem)
      | succ j =>
        have hj : j < uo.length := by
          simpa using hi
        have hju : j < un.length := by
          simpa using hiu
        have hne : a ≠ uo[j] := by
          intro hcontra
          exact (List.nodup_cons.mp hnd).1 (hcontra ▸ uo.getElem_mem hj)
        unfold lookupNew
        simp only [List.zip_cons_cons, List.foldl_cons, List.getElem_cons_succ]
        rw [if_neg hne]
        exact ih un j (List.nodup_cons.mp hnd).2 hj hju

/-- Position of an element inside a contiguous run `range' a b`. -/
theorem indexOf_range' (b : Nat) : ∀ (a l : Nat), l < b →
    (List.range' a b).indexOf (a + l) = l := by
  induction b with
  | zero => intro a l h; omega
  | succ m ih =>
    intro a l hl
    rw [List.range'_succ]
    cases l with
    | zero => simp
    | succ k =>
      rw [List.indexOf_cons_ne _ (by omega)]
      have h1 : a + (k + 1) = (a + 1) + k := by omega
      rw [h1, ih (a + 1) k (by omega)]

/-- Splitting the fold over `range (k+1)` into the fold over `range k`
followed by one step. -/
theorem foldl_range_succ (f : List Nat → Nat → List Nat) (b : List Nat)
    (k : Nat) :
    (List.range (k + 1)).foldl f b = f ((List.range k).foldl f b) k := by
  rw [List.range_succ, List.foldl_append]
  rfl

/-- Intermediate states of the `assign` loop when every out row is
assigned its death alternative, starting from the dense label array
`0..n-1`: after `k` steps the first `k` entries hold the fresh labels
`n..n+k-1` (each minted as `unique_new.max() + 1`) and the rest still hold
their original labels. -/
theorem assignLoop_all_death_steps (n : Nat) (L : List Nat)
    (hL : ∀ i, i < n → n ≤ L.getD i 0) (hn : 0 < n) :
    ∀ k, k ≤ n →
      (List.range k).foldl (assignStep n L) (List.range n) =
        List.range' n k ++ List.range' k (n - k) := by
  intro k
  induction k with
  | zero =>
    intro _
    simp [List.range_eq_range']
  | succ m ih =>
    intro hm
    have hm' : m ≤ n := by omega
    rw [foldl_range_succ, ih hm']
    unfold assignStep
    rw [if_pos (hL m (by omega))]
    have hmax : listMaxNat (List.range' n m ++ List.range' m (n - m)) + 1 =
        n + m := by
      rw [listMaxNat_append, listMaxNat_range', listMaxNat_range']
      rcases Nat.eq_zero_or_pos m with h0 | hpos
      · subst h0
        rw [if_pos rfl, if_neg (by omega), Nat.zero_max]
        omega
      · rw [if_neg (by omega), if_neg (by omega)]
        have h2 : m + (n - m) - 1 = n - 1 := by omega
        rw [h2, Nat.max_eq_left (by omega)]
        omega
    rw [hmax]
    have hlen : (List.range' n m).length = m := List.length_range' ..
    have hnm : n - m = (n - (m + 1)) + 1 := by omega
    rw [hnm, List.range'_succ,
      List.set_append_right _ _ (by rw [hlen]),
      show m - (List.range' n m).length = 0 by rw [hlen]; omega,
      List.set_cons_zero]
    rw [List.range'_concat n m, List.append_assoc]
    simp [Nat.one_mul, List.singleton_append]

/-- The full `assign` loop when every out row is assigned its death
alternative: each of the `n` dense labels is replaced by a fresh label, so
the final `unique_new` array is `n..2n-1`. -/
theorem assignUniqueNew_all_death (n : Nat) (L : List Nat)
    (hL : ∀ i, i < n → n ≤ L.getD i 0) (hn : 0 < n) :
    assignUniqueNew n L (List.range n) = List.range' n n := by
  unfold assignUniqueNew
  rw [assignLoop_all_death_steps n L hL hn n (Nat.le_refl n)]
  simp

/-- A sorted, key-unique table with 65538 segments: labels 0..65536 each
hold one record at `t_stamp = 5`, and label 65537 holds one record at
`t_stamp = 7`, so gap closing has candidate pairs (any of the first 65537
segments as out, segment 65537 as in, gap 2). -/
def bigTable : TrajTable :=
  { rows := (List.range 65537).map (fun l => mkRow 5 l) ++ [mkRow 7 65537] }

/-- An all-death solved assignment for `bigTable`: every out row `i` takes
its own death-alternative diagonal slot, column `n + i` with `n = 65538`.
Such an assignment is produced whenever every finite link cost exceeds the
alternative cost. -/
def bigOutLinks : List Nat :=
  (List.range 65538).map (fun i => 65538 + i)

/-- The labels of `bigTable` in order of appearance are `0..65537`. -/
theorem bigTable_tableLabels : tableLabels bigTable = List.range 65538 := by
  unfold tableLabels bigTable
  rw [List.map_append, List.map_map]
  have h1 : (TRow.label ∘ fun l => mkRow 5 l) = id := by
    funext l
    rfl
  rw [h1, List.map_id]
  have h2 : List.map TRow.label [mkRow 7 65537] = [65537] := rfl
  rw [h2, ← List.range_succ]
  exact uniqueFirst_eq_self _ (List.nodup_range 65538)

/-- Reading the all-death assignment entrywise. -/
theorem bigOutLinks_getD (i : Nat) (hi : i < 65538) :
    bigOutLinks.getD i 0 = 65538 + i := by
  unfold bigOutLinks
  rw [List.getD_eq_getElem _ _ (by simpa using hi)]
  simp

/-- The `unique_new` array computed by `assign` on `bigTable` under the
all-death assignment: every label minted fresh, `65538..131075`. -/
theorem big_assignUniqueNew :
    assignUniqueNew 65538 bigOutLinks (List.range 65538) =
      List.range' 65538 65538 := by
  apply assignUniqueNew_all_death
  · intro i hi
    rw [bigOutLinks_getD i hi]
    omega
  · omega

/-- Entrywise value of the label-replacement loop on `bigTable`: the
record of old label `l` is sent to the fresh label `65538 + l`. -/
theorem lookupNew_big (l : Nat) (hl : l < 65538) :
    lookupNew (List.range 65538) (List.range' 65538 65538) l = 65538 + l := by
  have hl2 : l < (List.range 65538).length := by simpa using hl
  have hget : (List.range 65538)[l] = l := by
    simp
  have hx := lookupNew_getElem (List.range 65538) (List.range' 65538 65538) l
    (List.nodup_range 65538) hl2 (by simpa using hl)
  rw [hget] at hx
  rw [hx]
  simp

/-- Mapping the label-replacement over the rows of `bigTable`, for any
lookup tables realizing the fresh relabeling. -/
theorem big_map_lookup (uo un : List Nat)
    (hlook : ∀ l : Nat, l < 65538 → lookupNew uo un l = 65538 + l) :
    bigTable.rows.map (fun r => lookupNew uo un r.label) =
      (List.range 65537).map (fun l => 65538 + l) ++ [65538 + 65537] := by
  unfold bigTable
  rw [List.map_append, List.map_map]
  have hA : List.map
      ((fun r => lookupNew uo un r.label) ∘ fun l => mkRow 5 l)
      (List.range 65537) =
      List.map (fun l => 65538 + l) (List.range 65537) := by
    apply List.map_congr_left
    intro l hl
    have hl' : l < 65537 := List.mem_range.mp hl
    simp only [Function.comp_apply]
    rw [show (mkRow 5 l).label = l from rfl]
    exact hlook l (by omega)
  have hB : List.map (fun r => lookupNew uo un r.label) [mkRow 7 65537]
      = [65538 + 65537] := by
    show [lookupNew uo un 65537] = [65538 + 65537]
    rw [hlook 65537 (by omega)]
  rw [hA, hB]

/-- The `new_labels` array computed by `assign` on `bigTable`: record of
label `l` gets `65538 + l`. -/
theorem big_assignNewLabels :
    assignNewLabels bigTable bigOutLinks =
      (List.range 65537).map (fun l => 65538 + l) ++ [65538 + 65537] := by
  simp only [assignNewLabels]
  rw [bigTable_tableLabels, List.length_range, big_assignUniqueNew]
  exact big_map_lookup _ _ lookupNew_big

/-- The rows of `bigTable` after the new labels are swapped into the
`label` level (already in sorted key order). -/
def bigRows1 : List TRow :=
  (List.range 65537).map
    (fun l => { t_stamp := 5, label := 65538 + l, payload := [] }) ++
  [{ t_stamp := 7, label := 65538 + 65537, payload := [] }]

/-- Swapping the fresh labels into `bigTable` yields `bigRows1`. -/
theorem big_setNewLabels :
    setNewLabels bigTable
      ((List.range 65537).map (fun l => 65538 + l) ++ [65538 + 65537]) =
      bigRows1 := by
  unfold setNewLabels bigTable bigRows1
  rw [List.zip_append (by simp), List.zip_map', List.map_append, List.map_map]
  have hA : List.map
      ((fun p : TRow × Nat => { p.1 with label := p.2 }) ∘
        fun l => (mkRow 5 l, 65538 + l)) (List.range 65537) =
      List.map
        (fun l => ({ t_stamp := 5, label := 65538 + l, payload := [] } : TRow))
        (List.range 65537) :=
    List.map_congr_left (fun l _ => rfl)
  have hB : List.map (fun p : TRow × Nat => { p.1 with label := p.2 })
      ([mkRow 7 65537].zip [65538 + 65537]) =
      [({ t_stamp := 7, label := 65538 + 65537, payload := [] } : TRow)] := rfl
  rw [hA, hB]

/-- The swapped table is already sorted by the composite key. -/
theorem big_rows1_sorted : List.Sorted rowKeyLe bigRows1 := by
  unfold bigRows1 List.Sorted
  rw [List.pairwise_append]
  refine ⟨?_, ?_, ?_⟩
  · rw [List.pairwise_map]
    apply (List.pairwise_lt_range 65537).imp
    intro a b hab
    exact Or.inr ⟨rfl, show 65538 + a ≤ 65538 + b by omega⟩
  · exact List.pairwise_singleton _ _
  · intro a ha b hb
    rcases List.mem_map.mp ha with ⟨l, _, rfl⟩
    rcases List.mem_singleton.mp hb with rfl
    exact Or.inl (by norm_num)

/-- The label column of `bigRows1` is the contiguous run `65538..131075`. -/
theorem big_rows1_labels :
    bigRows1.map TRow.label = List.range' 65538 65538 := by
  unfold bigRows1
  rw [List.map_append, List.map_map]
  have hA : List.map
      (TRow.label ∘ fun l =>
        ({ t_stamp := 5, label := 65538 + l, payload := [] } : TRow))
      (List.range 65537) = List.map (fun l => 65538 + l) (List.range 65537) :=
    List.map_congr_left (fun l _ => rfl)
  have hB : List.map TRow.label
      [({ t_stamp := 7, label := 65538 + 65537, payload := [] } : TRow)] =
      [65538 + 65537] := rfl
  rw [hA, hB]
  have hsplit : List.range' 65538 (65537 + 1) =
      List.range' 65538 65537 ++ [65538 + 1 * 65537] :=
    List.range'_concat 65538 65537
  rw [show (65537 : Nat) + 1 = 65538 from rfl] at hsplit
  rw [hsplit, List.range'_eq_map_range]

/-- The rows of the final table `assign` produces on `bigTable`: labels
renumbered from zero by first appearance, each stored mod 65536 by the
uint16 cast. -/
def bigFinalRows : List TRow :=
  (List.range 65537).map
    (fun l => { t_stamp := 5, label := l % 65536, payload := [] }) ++
  [{ t_stamp := 7, label := 65537 % 65536, payload := [] }]

/-- The from-zero renumbering of `bigRows1`, for any unique-label list
realizing the first-appearance positions. -/
theorem big_fromzero_map (uniq : List Nat)
    (hidx : ∀ l : Nat, l < 65538 → uniq.indexOf (65538 + l) = l) :
    bigRows1.map
      (fun r => { r with label := uniq.indexOf r.label % 65536 }) =
      bigFinalRows := by
  unfold bigRows1 bigFinalRows
  rw [List.map_append, List.map_map]
  have hA : List.map
      ((fun r => ({ r with label := uniq.indexOf r.label % 65536 } : TRow)) ∘
        fun l => ({ t_stamp := 5, label := 65538 + l, payload := [] } : TRow))
      (List.range 65537) =
      List.map
        (fun l => ({ t_stamp := 5, label := l % 65536, payload := [] } : TRow))
        (List.range 65537) := by
    apply List.map_congr_left
    intro l hl
    have hl' : l < 65537 := List.mem_range.mp hl
    simp only [Function.comp_apply]
    show TRow.mk 5 (uniq.indexOf (65538 + l) % 65536) [] = _
    rw [hidx l (by omega)]
  have hB : List.map
      (fun r => ({ r with label := uniq.indexOf r.label % 65536 } : TRow))
      [({ t_stamp := 7, label := 65538 + 65537, payload := [] } : TRow)] =
      [({ t_stamp := 7, label := 65537 % 65536, payload := [] } : TRow)] := by
    show [TRow.mk 7 (uniq.indexOf (65538 + 65537) % 65536) []] = _
    rw [hidx 65537 (by omega)]
  rw [hA, hB]

/-- Applying the embedded `relabel_fromzero` to the swapped table: the
first-appearance renumbering positions run `0..65537` and are stored mod
65536 by the uint16 cast. -/
theorem big_relabelFromZero :
    relabelFromZeroRows bigRows1 = bigFinalRows := by
  simp only [relabelFromZeroRows]
  rw [big_rows1_labels, uniqueFirst_eq_self _ (List.nodup_range' 65538 65538)]
  exact big_fromzero_map _ (fun l hl => indexOf_range' 65538 65538 l hl)

/-- The complete effect of `GapCloseSolver.assign` on `bigTable` under the
all-death assignment. -/
theorem big_final :
    assignRelabel bigTable bigOutLinks = some { rows := bigFinalRows } := by
  have hlen : (assignNewLabels bigTable bigOutLinks).length =
      bigTable.rows.length := by
    rw [big_assignNewLabels]
    unfold bigTable
    rw [List.length_append, List.length_map, List.length_range,
      List.length_append, List.length_map, List.length_range,
      List.length_singleton, List.length_singleton]
  unfold assignRelabel relabelTrajs
  rw [relabelTable_eq_composed bigTable _ hlen]
  simp only [relabelComposed]
  rw [big_assignNewLabels, big_setNewLabels,
    big_rows1_sorted.insertionSort_eq, big_relabelFromZero]

/-- The composite keys of `bigTable`. -/
theorem bigTable_keys :
    bigTable.rows.map (fun r => (r.t_stamp, r.label)) =
      (List.range 65537).map (fun l => ((5 : Int), l)) ++
      [((7 : Int), 65537)] := by
  unfold bigTable
  rw [List.map_append, List.map_map]
  have hA : List.map
      ((fun r : TRow => (r.t_stamp, r.label)) ∘ fun l => mkRow 5 l)
      (List.range 65537) =
      List.map (fun l => ((5 : Int), l)) (List.range 65537) :=
    List.map_congr_left (fun l _ => rfl)
  have hB : List.map (fun r : TRow => (r.t_stamp, r.label)) [mkRow 7 65537] =
      [((7 : Int), 65537)] := rfl
  rw [hA, hB]

/-- The input table of the counterexample satisfies the key-uniqueness
precondition: no two of its records share `(t_stamp, label)`. -/
theorem bigTable_keys_nodup :
    (bigTable.rows.map (fun r => (r.t_stamp, r.label))).Nodup := by
  rw [bigTable_keys, List.nodup_append]
  refine ⟨?_, ?_, ?_⟩
  · refine List.Nodup.map ?_ (List.nodup_range 65537)
    intro a b hab
    simpa using hab
  · simp
  · intro x hx hx2
    rcases List.mem_map.mp hx with ⟨l, _, rfl⟩
    have h := List.mem_singleton.mp hx2
    rw [Prod.ext_iff] at h
    exact absurd h.1 (by norm_num)

/-- The composite keys of the final table. -/
theorem bigFinal_keys :
    bigFinalRows.map (fun r => (r.t_stamp, r.label)) =
      (List.range 65537).map (fun l => ((5 : Int), l % 65536)) ++
      [((7 : Int), 65537 % 65536)] := by
  unfold bigFinalRows
  rw [List.map_append, List.map_map]
  have hA : List.map
      ((fun r : TRow => (r.t_stamp, r.label)) ∘ fun l =>
        ({ t_stamp := 5, label := l % 65536, payload := [] } : TRow))
      (List.range 65537) =
      List.map (fun l => ((5 : Int), l % 65536)) (List.range 65537) :=
    List.map_congr_left (fun l _ => rfl)
  have hB : List.map (fun r : TRow => (r.t_stamp, r.label))
      [({ t_stamp := 7, label := 65537 % 65536, payload := [] } : TRow)] =
      [((7 : Int), 65537 % 65536)] := rfl
  rw [hA, hB]

/-- The final table has two records with the key `(5, 0)`: the segments of
old labels 0 and 65536 collide after the uint16 wrap. -/
theorem bigFinal_not_nodup :
    ¬ (bigFinalRows.map (fun r => (r.t_stamp, r.label))).Nodup := by
  rw [bigFinal_keys]
  intro hnd
  have hlenA : ((List.range 65537).map
      (fun l => ((5 : Int), l % 65536))).length = 65537 := by simp
  have hlen : ((List.range 65537).map (fun l => ((5 : Int), l % 65536)) ++
      [((7 : Int), 65537 % 65536)]).length = 65538 := by
    rw [List.length_append, List.length_map, List.length_range]
    rfl
  have h0 : 0 < ((List.range 65537).map (fun l => ((5 : Int), l % 65536)) ++
      [((7 : Int), 65537 % 65536)]).length := by
    rw [hlen]
    omega
  have hN : 65536 < ((List.range 65537).map (fun l => ((5 : Int), l % 65536)) ++
      [((7 : Int), 65537 % 65536)]).length := by
    rw [hlen]
    omega
  have e0 : ((List.range 65537).map (fun l => ((5 : Int), l % 65536)) ++
      [((7 : Int), 65537 % 65536)])[0] =
      ((5 : Int), 0 % 65536) := by
    rw [List.getElem_append_left (by rw [hlenA]; omega)]
    simp
  have eN : ((List.range 65537).map (fun l => ((5 : Int), l % 65536)) ++
      [((7 : Int), 65537 % 65536)])[65536] =
      ((5 : Int), 65536 % 65536) := by
    rw [List.getElem_append_left (by rw [hlenA]; omega)]
    simp
  have hget := List.pairwise_iff_getElem.mp hnd 0 65536 h0 hN (by omega)
  rw [e0, eN] at hget
  exact hget (by norm_num)

/-- C5: key uniqueness is NOT preserved by the solver relabeling: on the
key-unique, sorted table with 65538 segments (`bigTable`) and the all-death
solved assignment, `GapCloseSolver.assign` mints 65538 fresh labels and the
chained `relabel` / `relabel_fromzero` renumbers them from zero into an
array of dtype `np.uint16`, wrapping the 65537th position to 0 — after
which the records of old labels 0 and 65536 share the key `(5, 0)`. -/
theorem solver_relabel_key_uniqueness_bug :
    (bigTable.rows.map (fun r => (r.t_stamp, r.label))).Nodup ∧
    ∃ u, assignRelabel bigTable bigOutLinks = some u ∧
      ¬ (u.rows.map (fun r => (r.t_stamp, r.label))).Nodup :=
  ⟨bigTable_keys_nodup,
    ⟨{ rows := bigFinalRows }, big_final, bigFinal_not_nodup⟩⟩

end SkTracker
